import Mathlib

/-!
Verification of the context-assembly pipeline and retrieval layer of the
Bot-consulting backend, shallowly embedded from
`app/services/context_manager.py`, `app/services/rag_service.py` and
`app/repositories/document_repository.py`.
-/

set_option linter.unusedVariables false
set_option maxRecDepth 100000

/-- A role/content pair, the unit the context assembler operates on
(a Python dict with keys role and content). -/
structure Msg where
  role : String
  content : String
deriving Repr, DecidableEq

/-- Config `settings.MAX_CONTEXT_TOKENS` (config.py). -/
def MAX_CONTEXT_TOKENS : Nat := 4000

/-- Config `settings.MAX_RETRIEVAL_CHUNKS` (config.py). -/
def MAX_RETRIEVAL_CHUNKS : Nat := 5

namespace ContextManager

/-- Python `ContextManager._estimate_total_tokens`: running total of
`len(content) // 4` plus 5 per message. -/
def _estimate_total_tokens (messages : List Msg) : Nat :=
  messages.foldl (fun total msg => total + msg.content.length / 4 + 5) 0

/-- Python `ContextManager._apply_sliding_window`: keep only the most recent
`max_messages` messages (`messages[-max_messages:]` for a positive cap). -/
def _apply_sliding_window (messages : List Msg) (max_messages : Nat) : List Msg :=
  if messages.length ≤ max_messages then messages
  else messages.drop (messages.length - max_messages)

/-- The reversed-iteration loop of
`ContextManager._truncate_context`: the first argument is the reversed
conversation list, the `Nat` accumulator is `current_tokens`; an accepted
message is inserted at position 0 of the result, and the loop breaks at the
first message that does not fit. -/
def _truncate_loop (available_tokens : Int) : List Msg → Nat → List Msg
  | [], _ => []
  | msg :: rest, current_tokens =>
    let msg_tokens := _estimate_total_tokens [msg]
    if ((current_tokens + msg_tokens : Nat) : Int) ≤ available_tokens then
      _truncate_loop available_tokens rest (current_tokens + msg_tokens) ++ [msg]
    else []

/-- Python `ContextTooLongError` (app/utils/errors.py): the one failure the
assembler raises. -/
structure ContextTooLongError where
  detail : String
deriving Repr, DecidableEq

/-- Python `ContextManager._truncate_context`: keep all system-role messages,
then as many conversation messages as fit in
`max_context_tokens - system_tokens - 100`, newest first; raise
`ContextTooLongError` when none fits. -/
def _truncate_context (max_context_tokens : Nat) (messages : List Msg) :
    Except ContextTooLongError (List Msg) :=
  if messages = [] then .ok messages
  else
    let system_msgs := messages.filter (fun msg => msg.role == "system")
    let conversation_msgs := messages.filter (fun msg => !(msg.role == "system"))
    let system_tokens := _estimate_total_tokens system_msgs
    let available_tokens : Int := (max_context_tokens : Int) - system_tokens - 100
    let truncated_conversation := _truncate_loop available_tokens conversation_msgs.reverse 0
    if truncated_conversation = [] then
      .error ⟨"Context too long even after truncation. Please start a new conversation."⟩
    else
      .ok (system_msgs ++ truncated_conversation)

/-- The joined labelled-chunk string of `prepare_context`: each chunk under a
1-indexed `[Context N]` header, separated by blank lines. -/
def chunks_text (retrieved_chunks : List String) : String :=
  String.intercalate "\n\n"
    (retrieved_chunks.enum.map (fun p => "[Context " ++ toString (p.1 + 1) ++ "]\n" ++ p.2))

/-- The fixed prefix of the `context_content` f-string of `prepare_context`. -/
def context_instruction : String :=
  "Use the following context from uploaded documents to answer the user\x27s questions. \nIf the user asks about \"the file\" or \"this file\", they are referring to the content below.\nAnswer based on the provided context. If the context doesn\x27t contain enough information, say so.\n\nContext from documents:\n"

/-- The `context_content` of `prepare_context`: instruction plus labelled chunks. -/
def context_content (retrieved_chunks : List String) : String :=
  context_instruction ++ chunks_text retrieved_chunks

/-- Step 1 of `prepare_context`: the optional system-prompt message
(`if system_prompt:` — Python truthiness skips both `None` and `""`). -/
def directive_msgs (system_prompt : Option String) : List Msg :=
  match system_prompt with
  | none => []
  | some sp => if sp = "" then [] else [⟨"system", sp⟩]

/-- Steps 1–3 of `ContextManager.prepare_context`: optional system prompt
(skipped for `None` or the empty string, Python truthiness), optional
retrieved-chunks system message (skipped for an empty list), then the
windowed conversation history. -/
def assemble_context (messages : List Msg) (system_prompt : Option String)
    (retrieved_chunks : List String) : List Msg :=
  directive_msgs system_prompt ++
  (if retrieved_chunks = [] then [] else [⟨"system", context_content retrieved_chunks⟩]) ++
  _apply_sliding_window messages 20

/-- Python `ContextManager.prepare_context`: assemble, estimate, truncate when the
estimate exceeds `max_context_tokens` (`rag_enabled` only drives a log line). -/
def prepare_context (max_context_tokens : Nat) (messages : List Msg)
    (system_prompt : Option String) (retrieved_chunks : List String)
    (rag_enabled : Bool) : Except ContextTooLongError (List Msg) :=
  let context_messages := assemble_context messages system_prompt retrieved_chunks
  let total_tokens := _estimate_total_tokens context_messages
  if total_tokens > max_context_tokens then
    _truncate_context max_context_tokens context_messages
  else
    .ok context_messages

/-- The per-message token estimate: `len(content) // 4 + 5`. -/
def msgTokens (m : Msg) : Nat := m.content.length / 4 + 5

/-- The `system_msgs` split of `_truncate_context`. -/
def system_part (ctx : List Msg) : List Msg :=
  ctx.filter (fun msg => msg.role == "system")

/-- The `conversation_msgs` split of `_truncate_context`. -/
def conversation_part (ctx : List Msg) : List Msg :=
  ctx.filter (fun msg => !(msg.role == "system"))

/-- The `available_tokens` of `_truncate_context`:
`max_context_tokens - system_tokens - 100`. -/
def available_int (max_context_tokens : Nat) (ctx : List Msg) : Int :=
  (max_context_tokens : Int) - _estimate_total_tokens (system_part ctx) - 100

end ContextManager

/-- A 400-character content (105 estimated tokens) used by the concrete
truncation scenarios. -/
def longContent : String := String.mk (List.replicate 400 'a')

namespace DocumentRepository

/-- A row of the `document_chunks` table. -/
structure ChunkRow where
  document_id : Nat
  chunk_text : String
  chunk_index : Nat
deriving Repr, DecidableEq

/-- The `ORDER BY chunk_index ASC` ordering of `search_chunks`. -/
def byIndex (a b : ChunkRow) : Prop := a.chunk_index ≤ b.chunk_index

instance : DecidableRel byIndex := fun a b => Nat.decLe a.chunk_index b.chunk_index

instance : IsTotal ChunkRow byIndex := ⟨fun a b => Nat.le_total a.chunk_index b.chunk_index⟩

instance : IsTrans ChunkRow byIndex := ⟨fun a b c => Nat.le_trans⟩

/-- SQL `SELECT * FROM document_chunks WHERE document_id IN (doc_db_ids) AND
<cond> ORDER BY chunk_index ASC LIMIT limit`, over the table in storage
order (ties of equal `chunk_index`, which SQL leaves unspecified, are kept
in storage order). -/
def sqlSelect (table : List ChunkRow) (doc_db_ids : List Nat) (cond : ChunkRow → Bool)
    (limit : Nat) : List ChunkRow :=
  ((table.filter (fun r => decide (r.document_id ∈ doc_db_ids) && cond r)).insertionSort
    byIndex).take limit

/-- Python `search_query.split()`: whitespace-separated words, empties
dropped. -/
def keywords_of (search_query : String) : List String :=
  (search_query.split (fun c => c.isWhitespace)).filter (fun w => !(w == ""))

/-- SQL `chunk_text LIKE` with a surrounding wildcard pattern, modelled as
substring containment. -/
def likeMatch (keyword : String) (text : String) : Bool :=
  decide (keyword.data <:+: text.data)

/-- The storage environment `DocumentRepository.search_chunks` runs against:
the `document_chunks` table, the MySQL `MATCH ... AGAINST (... IN NATURAL
LANGUAGE MODE)` predicate (query, then chunk text), and whether the FULLTEXT
query executes without raising (a FULLTEXT index exists). -/
structure SearchEnv where
  table : List ChunkRow
  ftMatch : String → String → Bool
  fulltext_ok : Bool

/-- Python `DocumentRepository.search_chunks`: try the FULLTEXT query and return its
rows when it raises no error and finds any; otherwise fall back to a LIKE
query over the split keywords (or to the unconditioned query when the split
is empty). Every branch orders by `chunk_index ASC` and applies `LIMIT`. -/
def search_chunks (env : SearchEnv) (doc_db_ids : List Nat) (search_query : String)
    (limit : Nat) : List ChunkRow :=
  if doc_db_ids = [] then []
  else if env.fulltext_ok = true ∧
      sqlSelect env.table doc_db_ids
        (fun r => env.ftMatch search_query r.chunk_text) limit ≠ [] then
    sqlSelect env.table doc_db_ids (fun r => env.ftMatch search_query r.chunk_text) limit
  else if keywords_of search_query = [] then
    sqlSelect env.table doc_db_ids (fun r => true) limit
  else
    sqlSelect env.table doc_db_ids
      (fun r => (keywords_of search_query).any
        (fun keyword => likeMatch keyword r.chunk_text)) limit

/-- A concrete document-level keyword relevance, used to instantiate the
specification's abstract relevance ranking: the number of positions of the
text at which the query occurs. -/
def countOcc (q : List Char) : List Char → Nat
  | [] => 0
  | c :: rest => (if q <+: (c :: rest) then 1 else 0) + countOcc q rest

/-- Relevance of the text of a chunk for a query. -/
def relevance (search_query : String) (r : ChunkRow) : Nat :=
  countOcc search_query.data r.chunk_text.data

end DocumentRepository

namespace RAGService

/-- The collaborators `RAGService.retrieve_relevant_chunks` calls, each
modelled as the value the call returns — or, as `Except.error`, the
exception it raises — for the conversation at hand:
`conversation_repo.get_conversation_by_id` followed by the id-field lookup,
`conversation_repo.get_linked_documents` (document ids in linked order),
`document_repo.search_chunks` (returned chunk texts), and
`document_repo.get_chunks_by_document` (chunk texts in ascending
chunk-index order). -/
structure RagEnv where
  conversation_lookup : Except String Nat
  linked_docs : Except String (List Nat)
  search_chunks : List Nat → String → Nat → Except String (List String)
  chunks_by_document : Nat → Except String (List String)

/-- The fallback per-document loop of
`retrieve_relevant_chunks`: from each linked document in order take the
first 3 chunks, stopping once `max_chunks` texts are collected; a raised
exception propagates to the enclosing `try`. -/
def fallback_loop (env : RagEnv) (max_chunks : Nat) :
    List Nat → List String → Except String (List String)
  | [], chunk_texts => .ok chunk_texts
  | doc_db_id :: rest, chunk_texts =>
    match env.chunks_by_document doc_db_id with
    | .error e => .error e
    | .ok all_chunks =>
      if all_chunks = [] then fallback_loop env max_chunks rest chunk_texts
      else
        let chunk_texts2 := chunk_texts ++ all_chunks.take 3
        if max_chunks ≤ chunk_texts2.length then .ok chunk_texts2
        else fallback_loop env max_chunks rest chunk_texts2

/-- The try-block body of `retrieve_relevant_chunks`: resolve the conversation,
return `[]` for zero linked documents, search, fall back to the first chunks
of each linked document when the search found nothing, and cap the final
list at `MAX_RETRIEVAL_CHUNKS`. -/
def retrieve_body (env : RagEnv) (user_query : String) : Except String (List String) :=
  match env.conversation_lookup with
  | .error e => .error e
  | .ok conv_db_id =>
    match env.linked_docs with
    | .error e => .error e
    | .ok doc_db_ids =>
      if doc_db_ids = [] then .ok []
      else
        match env.search_chunks doc_db_ids user_query MAX_RETRIEVAL_CHUNKS with
        | .error e => .error e
        | .ok chunk_texts =>
          match (if chunk_texts = [] then
                  fallback_loop env MAX_RETRIEVAL_CHUNKS doc_db_ids []
                 else .ok chunk_texts) with
          | .error e => .error e
          | .ok final_texts => .ok (final_texts.take MAX_RETRIEVAL_CHUNKS)

/-- Python `RAGService.retrieve_relevant_chunks`: the body runs under
`try: ... except Exception: return []` — every raised error is swallowed and
an empty list returned. -/
def retrieve_relevant_chunks (env : RagEnv) (user_query : String) : List String :=
  match retrieve_body env user_query with
  | .ok chunk_texts => chunk_texts
  | .error _ => []

end RAGService

namespace ContextManager

lemma foldl_add_tokens (messages : List Msg) :
    ∀ init : Nat,
      messages.foldl (fun total msg => total + msg.content.length / 4 + 5) init =
        init + (messages.map msgTokens).sum := by
  induction messages with
  | nil => intro init; simp
  | cons m rest ih =>
    intro init
    simp only [List.foldl_cons, List.map_cons, List.sum_cons, ih, msgTokens]
    omega

lemma estimate_eq_sum (messages : List Msg) :
    _estimate_total_tokens messages = (messages.map msgTokens).sum := by
  simpa using foldl_add_tokens messages 0

lemma estimate_nil : _estimate_total_tokens [] = 0 := rfl

lemma estimate_singleton (m : Msg) : _estimate_total_tokens [m] = msgTokens m := by
  simp [estimate_eq_sum]

lemma estimate_append (a b : List Msg) :
    _estimate_total_tokens (a ++ b) = _estimate_total_tokens a + _estimate_total_tokens b := by
  simp [estimate_eq_sum]

lemma estimate_cons (m : Msg) (l : List Msg) :
    _estimate_total_tokens (m :: l) = msgTokens m + _estimate_total_tokens l := by
  simp [estimate_eq_sum]

lemma estimate_reverse (l : List Msg) :
    _estimate_total_tokens l.reverse = _estimate_total_tokens l := by
  simp [estimate_eq_sum, List.sum_reverse]

lemma estimate_suffix_le {s l : List Msg} (h : s <:+ l) :
    _estimate_total_tokens s ≤ _estimate_total_tokens l := by
  obtain ⟨u, rfl⟩ := h
  rw [estimate_append]
  omega

lemma suffix_of_suffix_length_le {α} {s t l : List α} (hs : s <:+ l) (ht : t <:+ l)
    (h : s.length ≤ t.length) : s <:+ t := by
  rw [← List.reverse_prefix] at hs ht ⊢
  exact List.prefix_of_prefix_length_le hs ht (by simpa using h)

/-- Characterization of the truncation loop on an arbitrary reversed
conversation list: it returns the reverse of some prefix `take k` of its
input, that prefix fits when non-trivial, and the next message (when one
exists) does not fit. -/
lemma truncate_loop_char (available_tokens : Int) :
    ∀ (r : List Msg) (c : Nat), ∃ k, k ≤ r.length ∧
      _truncate_loop available_tokens r c = (r.take k).reverse ∧
      (k = 0 ∨ (c : Int) + _estimate_total_tokens (r.take k) ≤ available_tokens) ∧
      (k = r.length ∨
        available_tokens < (c : Int) + _estimate_total_tokens (r.take (k + 1))) := by
  intro r
  induction r with
  | nil =>
    intro c
    exact ⟨0, by simp [_truncate_loop]⟩
  | cons m rest ih =>
    intro c
    by_cases hacc : ((c + _estimate_total_tokens [m] : Nat) : Int) ≤ available_tokens
    · obtain ⟨k', hk'le, heq, hfit, hmax⟩ := ih (c + _estimate_total_tokens [m])
      refine ⟨k' + 1, by simpa using hk'le, ?_, Or.inr ?_, ?_⟩
      · simp only [_truncate_loop, if_pos hacc, heq, List.take_succ_cons, List.reverse_cons]
      · rw [List.take_succ_cons, estimate_cons, ← estimate_singleton]
        rcases hfit with h0 | hfit
        · subst h0
          simp only [List.take_zero, estimate_nil]
          omega
        · omega
      · rcases hmax with hlen | hmax
        · exact Or.inl (by simp [hlen])
        · refine Or.inr ?_
          rw [List.take_succ_cons, estimate_cons, ← estimate_singleton]
          omega
    · refine ⟨0, by simp, by simp [_truncate_loop, if_neg hacc]; omega, Or.inl rfl, Or.inr ?_⟩
      rw [List.take_succ_cons, List.take_zero, estimate_cons, estimate_nil, ← estimate_singleton]
      omega

/-- The truncated conversation is a suffix of the conversation list. -/
lemma loop_tail_suffix (available_tokens : Int) (conv : List Msg) :
    _truncate_loop available_tokens conv.reverse 0 <:+ conv := by
  obtain ⟨k, hk, heq, -, -⟩ := truncate_loop_char available_tokens conv.reverse 0
  rw [heq]
  refine ⟨(conv.reverse.drop k).reverse, ?_⟩
  rw [← List.reverse_append, List.take_append_drop, List.reverse_reverse]

/-- A non-empty truncated conversation fits the available token allowance. -/
lemma loop_tail_fits (available_tokens : Int) (conv : List Msg)
    (hne : _truncate_loop available_tokens conv.reverse 0 ≠ []) :
    (_estimate_total_tokens (_truncate_loop available_tokens conv.reverse 0) : Int) ≤
      available_tokens := by
  obtain ⟨k, hk, heq, hfit, -⟩ := truncate_loop_char available_tokens conv.reverse 0
  rcases hfit with h0 | hfit
  · exact absurd (by simp [heq, h0]) hne
  · rw [heq, estimate_reverse]
    omega

/-- No longer suffix of the conversation list fits: the loop keeps a maximal
fitting suffix. -/
lemma loop_tail_maximal (available_tokens : Int) (conv : List Msg) (t : List Msg)
    (ht : t <:+ conv) (hfit : (_estimate_total_tokens t : Int) ≤ available_tokens) :
    t.length ≤ (_truncate_loop available_tokens conv.reverse 0).length := by
  obtain ⟨k, hk, heq, -, hmax⟩ := truncate_loop_char available_tokens conv.reverse 0
  rw [heq, List.length_reverse, List.length_take_of_le hk]
  by_contra hlt
  push_neg at hlt
  have htc : t.length ≤ conv.length := ht.length_le
  have hkc : k < conv.length := by omega
  rcases hmax with hlen | hmax
  · rw [List.length_reverse] at hlen
    omega
  · have hs : (conv.reverse.take (k + 1)).reverse <:+ conv := by
      refine ⟨(conv.reverse.drop (k + 1)).reverse, ?_⟩
      rw [← List.reverse_append, List.take_append_drop, List.reverse_reverse]
    have hslen : (conv.reverse.take (k + 1)).reverse.length = k + 1 := by
      rw [List.length_reverse, List.length_take_of_le (by simpa using hkc)]
    have hst : (conv.reverse.take (k + 1)).reverse <:+ t :=
      suffix_of_suffix_length_le hs ht (by omega)
    have hle : _estimate_total_tokens (conv.reverse.take (k + 1)).reverse ≤
        _estimate_total_tokens t := estimate_suffix_le hst
    rw [estimate_reverse] at hle
    omega

/-- Unfolding of `_truncate_context` on a non-empty list, written with the system/
conversation split and the loop exposed. -/
lemma truncate_context_eq (max_context_tokens : Nat) (messages : List Msg)
    (hne : messages ≠ []) :
    _truncate_context max_context_tokens messages =
      (if _truncate_loop
            ((max_context_tokens : Int) -
              _estimate_total_tokens (messages.filter (fun msg => msg.role == "system")) - 100)
            (messages.filter (fun msg => !(msg.role == "system"))).reverse 0 = [] then
        .error ⟨"Context too long even after truncation. Please start a new conversation."⟩
      else
        .ok (messages.filter (fun msg => msg.role == "system") ++
          _truncate_loop
            ((max_context_tokens : Int) -
              _estimate_total_tokens (messages.filter (fun msg => msg.role == "system")) - 100)
            (messages.filter (fun msg => !(msg.role == "system"))).reverse 0)) := by
  rw [_truncate_context, if_neg hne]

/-- A list whose token estimate is positive is non-empty. -/
lemma ne_nil_of_estimate_pos {messages : List Msg}
    (h : 0 < _estimate_total_tokens messages) : messages ≠ [] := by
  intro hnil
  rw [hnil] at h
  simp [estimate_nil] at h

lemma truncate_context_eq₂ (max_context_tokens : Nat) (messages : List Msg)
    (hne : messages ≠ []) :
    _truncate_context max_context_tokens messages =
      (if _truncate_loop (available_int max_context_tokens messages)
            (conversation_part messages).reverse 0 = [] then
        .error ⟨"Context too long even after truncation. Please start a new conversation."⟩
      else
        .ok (system_part messages ++
          _truncate_loop (available_int max_context_tokens messages)
            (conversation_part messages).reverse 0)) :=
  truncate_context_eq max_context_tokens messages hne

lemma prepare_context_eq (max_context_tokens : Nat) (messages : List Msg)
    (system_prompt : Option String) (retrieved_chunks : List String) (rag_enabled : Bool) :
    prepare_context max_context_tokens messages system_prompt retrieved_chunks rag_enabled =
      (if _estimate_total_tokens (assemble_context messages system_prompt retrieved_chunks) >
          max_context_tokens then
        _truncate_context max_context_tokens
          (assemble_context messages system_prompt retrieved_chunks)
      else
        .ok (assemble_context messages system_prompt retrieved_chunks)) := rfl

/-- Each sliding-window output message comes from the input history. -/
lemma sliding_window_subset (messages : List Msg) (cap : Nat) :
    ∀ m ∈ _apply_sliding_window messages cap, m ∈ messages := by
  intro m hm
  unfold _apply_sliding_window at hm
  by_cases h : messages.length ≤ cap
  · rwa [if_pos h] at hm
  · rw [if_neg h] at hm
    exact List.drop_subset _ _ hm

/-- With no system-role message in the history, the conversation part of the
assembled sequence is exactly the windowed history. -/
lemma conversation_part_of_no_system (messages : List Msg) (system_prompt : Option String)
    (retrieved_chunks : List String) (h : ∀ m ∈ messages, ¬ m.role = "system") :
    conversation_part (assemble_context messages system_prompt retrieved_chunks) =
      _apply_sliding_window messages 20 := by
  have hw : ∀ a ∈ _apply_sliding_window messages 20, (!(a.role == "system")) = true := by
    intro a ha
    simpa using h a (sliding_window_subset messages 20 a ha)
  unfold conversation_part assemble_context directive_msgs
  cases system_prompt with
  | none =>
    by_cases hc : retrieved_chunks = [] <;>
      simp [hc, List.filter_append, List.filter_eq_self.mpr hw]
  | some sp =>
    by_cases hsp : sp = "" <;> by_cases hc : retrieved_chunks = [] <;>
      simp [hsp, hc, List.filter_append, List.filter_eq_self.mpr hw]

end ContextManager

/-- C3: the sliding window is a no-op on histories of length at most 20, and
on longer histories keeps exactly the last 20 messages in their original
relative order, dropping all earlier messages entirely. -/
theorem C3_sliding_window (messages : List Msg) :
    (messages.length ≤ 20 → ContextManager._apply_sliding_window messages 20 = messages) ∧
    (messages.length > 20 →
      ContextManager._apply_sliding_window messages 20 <:+ messages ∧
      (ContextManager._apply_sliding_window messages 20).length = 20 ∧
      messages.take (messages.length - 20) ++ ContextManager._apply_sliding_window messages 20 =
        messages) := by
  constructor
  · intro h
    simp [ContextManager._apply_sliding_window, h]
  · intro h
    have hns : ¬ messages.length ≤ 20 := by omega
    refine ⟨?_, ?_, ?_⟩
    · simp only [ContextManager._apply_sliding_window, if_neg hns]
      exact List.drop_suffix _ _
    · simp only [ContextManager._apply_sliding_window, if_neg hns, List.length_drop]
      omega
    · simp only [ContextManager._apply_sliding_window, if_neg hns]
      exact List.take_append_drop _ _

/-- C4: the token estimate of a message list is the sum over its messages of
`floor(len(content) / 4) + 5`, and is monotone in content length for
same-role single messages. -/
theorem C4_token_estimate :
    (∀ messages : List Msg,
      ContextManager._estimate_total_tokens messages =
        (messages.map (fun m => m.content.length / 4 + 5)).sum) ∧
    (∀ role s1 s2 : String, s1.length ≤ s2.length →
      ContextManager._estimate_total_tokens [⟨role, s1⟩] ≤
        ContextManager._estimate_total_tokens [⟨role, s2⟩]) := by
  constructor
  · intro messages
    rw [ContextManager.estimate_eq_sum]
    rfl
  · intro role s1 s2 h
    simp only [ContextManager.estimate_singleton, ContextManager.msgTokens]
    have h4 : s1.length / 4 ≤ s2.length / 4 := Nat.div_le_div_right h
    omega

/-- C5: whenever the estimated total of the assembled sequence is within the token
budget, `prepare_context` returns it unchanged — truncation is the identity,
nothing is dropped and nothing is reordered. -/
theorem C5_no_truncation (budget : Nat) (messages : List Msg) (system_prompt : Option String)
    (retrieved_chunks : List String) (rag_enabled : Bool)
    (h : ContextManager._estimate_total_tokens
        (ContextManager.assemble_context messages system_prompt retrieved_chunks) ≤ budget) :
    ContextManager.prepare_context budget messages system_prompt retrieved_chunks rag_enabled =
      .ok (ContextManager.assemble_context messages system_prompt retrieved_chunks) := by
  have hng : ¬ ContextManager._estimate_total_tokens
      (ContextManager.assemble_context messages system_prompt retrieved_chunks) > budget := by
    omega
  simp [ContextManager.prepare_context, hng]

/-- C1 counterexample: with budget 109, a system prompt of 5 estimated tokens
(well within the budget) and one non-empty conversation message of 105
estimated tokens, `prepare_context` raises `ContextTooLongError` although the
system messages do not exceed the budget and conversation messages existed to
keep — the failure condition stated by the claim does not hold here, yet the
code fails. -/
theorem C1_counterexample :
    ContextManager.prepare_context 109 [⟨"user", longContent⟩] (some "s") [] false =
      .error ⟨"Context too long even after truncation. Please start a new conversation."⟩ ∧
    ContextManager._estimate_total_tokens
      (ContextManager.system_part
        (ContextManager.assemble_context [⟨"user", longContent⟩] (some "s") [])) ≤ 109 ∧
    ContextManager.conversation_part
      (ContextManager.assemble_context [⟨"user", longContent⟩] (some "s") []) ≠ [] := by
  refine ⟨rfl, by decide, by decide⟩

/-- C1 (amended): `prepare_context` fails — always with `ContextTooLongError`,
its sole failure — exactly when the estimated total of the assembled sequence
exceeds the token budget and no non-empty suffix of its conversation
(non-system) messages fits within budget − systemTokens − 100; in particular
it fails whenever truncation leaves zero conversation messages, even when the
system messages alone fit the budget. In every other case it returns a
message list. -/
theorem C1_overflow_exact (budget : Nat) (messages : List Msg)
    (system_prompt : Option String) (retrieved_chunks : List String) (rag_enabled : Bool) :
    (∃ e, ContextManager.prepare_context budget messages system_prompt retrieved_chunks
        rag_enabled = .error e) ↔
      (budget < ContextManager._estimate_total_tokens
          (ContextManager.assemble_context messages system_prompt retrieved_chunks) ∧
        ∀ t, t <:+ ContextManager.conversation_part
              (ContextManager.assemble_context messages system_prompt retrieved_chunks) →
          t ≠ [] →
          ContextManager.available_int budget
              (ContextManager.assemble_context messages system_prompt retrieved_chunks) <
            ContextManager._estimate_total_tokens t) := by
  set ctx := ContextManager.assemble_context messages system_prompt retrieved_chunks with hctx
  set conv := ContextManager.conversation_part ctx with hconv
  set avail := ContextManager.available_int budget ctx with havail
  rw [ContextManager.prepare_context_eq]
  constructor
  · rintro ⟨e, he⟩
    by_cases hgt : ContextManager._estimate_total_tokens ctx > budget
    · rw [if_pos hgt] at he
      have hne : ctx ≠ [] := ContextManager.ne_nil_of_estimate_pos (by omega)
      rw [ContextManager.truncate_context_eq₂ budget ctx hne] at he
      refine ⟨hgt, ?_⟩
      by_cases htail : ContextManager._truncate_loop avail conv.reverse 0 = []
      · intro t ht htne
        by_contra hfit
        push_neg at hfit
        have hmax := ContextManager.loop_tail_maximal avail conv t ht hfit
        rw [htail] at hmax
        simp only [List.length_nil, Nat.le_zero, List.length_eq_zero] at hmax
        exact htne hmax
      · rw [if_neg htail] at he
        exact absurd he (by simp)
    · rw [if_neg hgt] at he
      exact absurd he (by simp)
  · rintro ⟨hgt, hall⟩
    have hne : ctx ≠ [] := ContextManager.ne_nil_of_estimate_pos (by omega)
    have htail : ContextManager._truncate_loop avail conv.reverse 0 = [] := by
      by_contra hnt
      have hfits := ContextManager.loop_tail_fits avail conv hnt
      have hsuf := ContextManager.loop_tail_suffix avail conv
      have := hall _ hsuf hnt
      omega
    rw [if_pos hgt, ContextManager.truncate_context_eq₂ budget ctx hne, if_pos htail]
    exact ⟨_, rfl⟩

/-- C2: whenever the estimated total of the assembled sequence exceeds the token
budget, the context returned by `prepare_context` keeps every system message
in full and in original order, followed by the surviving conversation
messages: the longest suffix of the conversation messages whose estimated
tokens fit within budget − systemTokens − 100 (so messages are dropped from
the oldest end only, and no system message is ever removed); when the history
carries no system-role message, that suffix is a contiguous suffix of the
windowed history. -/
theorem C2_truncation_oldest_first (budget : Nat) (messages : List Msg)
    (system_prompt : Option String) (retrieved_chunks : List String) (rag_enabled : Bool)
    (out : List Msg)
    (hgt : budget < ContextManager._estimate_total_tokens
        (ContextManager.assemble_context messages system_prompt retrieved_chunks))
    (hok : ContextManager.prepare_context budget messages system_prompt retrieved_chunks
        rag_enabled = .ok out) :
    ∃ tail,
      out = ContextManager.system_part
          (ContextManager.assemble_context messages system_prompt retrieved_chunks) ++ tail ∧
      tail <:+ ContextManager.conversation_part
          (ContextManager.assemble_context messages system_prompt retrieved_chunks) ∧
      (ContextManager._estimate_total_tokens tail : Int) ≤
        ContextManager.available_int budget
          (ContextManager.assemble_context messages system_prompt retrieved_chunks) ∧
      (∀ t, t <:+ ContextManager.conversation_part
            (ContextManager.assemble_context messages system_prompt retrieved_chunks) →
        (ContextManager._estimate_total_tokens t : Int) ≤
          ContextManager.available_int budget
            (ContextManager.assemble_context messages system_prompt retrieved_chunks) →
        t.length ≤ tail.length) ∧
      ((∀ m ∈ messages, ¬ m.role = "system") →
        tail <:+ ContextManager._apply_sliding_window messages 20) := by
  set ctx := ContextManager.assemble_context messages system_prompt retrieved_chunks with hctx
  set conv := ContextManager.conversation_part ctx with hconv
  set avail := ContextManager.available_int budget ctx with havail
  rw [ContextManager.prepare_context_eq, if_pos hgt] at hok
  have hne : ctx ≠ [] := ContextManager.ne_nil_of_estimate_pos (by omega)
  rw [ContextManager.truncate_context_eq₂ budget ctx hne] at hok
  by_cases htail : ContextManager._truncate_loop avail conv.reverse 0 = []
  · rw [if_pos htail] at hok
    exact absurd hok (by simp)
  · rw [if_neg htail] at hok
    refine ⟨ContextManager._truncate_loop avail conv.reverse 0, ?_, ?_, ?_, ?_, ?_⟩
    · injection hok with h
      exact h.symm
    · exact ContextManager.loop_tail_suffix avail conv
    · exact ContextManager.loop_tail_fits avail conv htail
    · exact fun t ht hf => ContextManager.loop_tail_maximal avail conv t ht hf
    · intro hnosys
      have hcw : conv = ContextManager._apply_sliding_window messages 20 := by
        rw [hconv, hctx]
        exact ContextManager.conversation_part_of_no_system messages system_prompt
          retrieved_chunks hnosys
      have h2 := ContextManager.loop_tail_suffix avail conv
      rw [hcw] at h2
      rw [hcw]
      exact h2

/-- C2 witness: budget 111, history of a 105-token and a 6-token user message
and a 5-token system prompt; truncation keeps the system message and exactly
the newest conversation message. -/
theorem C2_truncation_oldest_first_witness :
    ∃ tail,
      [Msg.mk "system" "s", Msg.mk "user" "bbbb"] = ContextManager.system_part
          (ContextManager.assemble_context [⟨"user", longContent⟩, ⟨"user", "bbbb"⟩]
            (some "s") []) ++ tail ∧
      tail <:+ ContextManager.conversation_part
          (ContextManager.assemble_context [⟨"user", longContent⟩, ⟨"user", "bbbb"⟩]
            (some "s") []) ∧
      (ContextManager._estimate_total_tokens tail : Int) ≤
        ContextManager.available_int 111
          (ContextManager.assemble_context [⟨"user", longContent⟩, ⟨"user", "bbbb"⟩]
            (some "s") []) ∧
      (∀ t, t <:+ ContextManager.conversation_part
            (ContextManager.assemble_context [⟨"user", longContent⟩, ⟨"user", "bbbb"⟩]
              (some "s") []) →
        (ContextManager._estimate_total_tokens t : Int) ≤
          ContextManager.available_int 111
            (ContextManager.assemble_context [⟨"user", longContent⟩, ⟨"user", "bbbb"⟩]
              (some "s") []) →
        t.length ≤ tail.length) ∧
      ((∀ m ∈ [Msg.mk "user" longContent, Msg.mk "user" "bbbb"], ¬ m.role = "system") →
        tail <:+ ContextManager._apply_sliding_window
          [⟨"user", longContent⟩, ⟨"user", "bbbb"⟩] 20) :=
  C2_truncation_oldest_first 111 [⟨"user", longContent⟩, ⟨"user", "bbbb"⟩] (some "s") [] false
    [⟨"system", "s"⟩, ⟨"user", "bbbb"⟩] (by decide) rfl

/-- C10: truncation partitions its input purely by the `system` role: the ok
output is exactly the system-role messages in their original relative order
followed by a suffix of the non-system messages, so a system-role message —
wherever it arrived — is never dropped and is placed before every surviving
non-system message; concretely, a system-role history message that followed a
user message in the input is emitted ahead of it. -/
theorem C10_truncation_partitions_by_role (budget : Nat) (messages out : List Msg)
    (hok : ContextManager._truncate_context budget messages = .ok out) :
    (∃ tail, out = ContextManager.system_part messages ++ tail ∧
      tail <:+ ContextManager.conversation_part messages) ∧
    ContextManager.prepare_context 111
        [⟨"user", longContent⟩, ⟨"user", "bbbb"⟩, ⟨"system", "s"⟩] none [] false =
      .ok [⟨"system", "s"⟩, ⟨"user", "bbbb"⟩] := by
  refine ⟨?_, rfl⟩
  by_cases hne : messages = []
  · subst hne
    refine ⟨[], ?_, List.nil_suffix⟩
    rw [ContextManager._truncate_context] at hok
    simp only [if_pos rfl] at hok
    cases hok
    rfl
  · rw [ContextManager.truncate_context_eq₂ budget messages hne] at hok
    by_cases htail : ContextManager._truncate_loop
        (ContextManager.available_int budget messages)
        (ContextManager.conversation_part messages).reverse 0 = []
    · rw [if_pos htail] at hok
      exact absurd hok (by simp)
    · rw [if_neg htail] at hok
      refine ⟨ContextManager._truncate_loop (ContextManager.available_int budget messages)
        (ContextManager.conversation_part messages).reverse 0, ?_, ?_⟩
      · cases hok
        rfl
      · exact ContextManager.loop_tail_suffix _ _

/-- C10 witness: a concrete truncation call whose output is the system
messages followed by a suffix of the conversation messages. -/
theorem C10_truncation_partitions_by_role_witness :
    (∃ tail, [Msg.mk "system" "s", Msg.mk "user" "bbbb"] =
        ContextManager.system_part
          [⟨"user", longContent⟩, ⟨"user", "bbbb"⟩, ⟨"system", "s"⟩] ++ tail ∧
      tail <:+ ContextManager.conversation_part
        [⟨"user", longContent⟩, ⟨"user", "bbbb"⟩, ⟨"system", "s"⟩]) ∧
    ContextManager.prepare_context 111
        [⟨"user", longContent⟩, ⟨"user", "bbbb"⟩, ⟨"system", "s"⟩] none [] false =
      .ok [⟨"system", "s"⟩, ⟨"user", "bbbb"⟩] :=
  C10_truncation_partitions_by_role 111
    [⟨"user", longContent⟩, ⟨"user", "bbbb"⟩, ⟨"system", "s"⟩]
    [⟨"system", "s"⟩, ⟨"user", "bbbb"⟩] rfl

set_option maxRecDepth 10000 in
/-- C5 witness: a concrete in-budget call where `prepare_context` returns the
assembled sequence unchanged. -/
theorem C5_no_truncation_witness :
    ContextManager.prepare_context 4000 [⟨"user", "hello"⟩] (some "be brief") ["A"] true =
      .ok (ContextManager.assemble_context [⟨"user", "hello"⟩] (some "be brief") ["A"]) :=
  C5_no_truncation 4000 [⟨"user", "hello"⟩] (some "be brief") ["A"] true (by decide)

/-- C6: with a non-empty `retrieved_chunks` the assembled sequence carries —
after the directive message, if any, and before all history messages —
exactly one additional system message whose body lists each chunk under a
1-indexed `[Context N]` label in input order; for chunks `["A","B","C"]` the
body ends with `[Context 1]\nA`, `[Context 2]\nB`, `[Context 3]\nC` in that
order; and with no chunks supplied (RAG enabled or not) no such message is
emitted and assembly proceeds. -/
theorem C6_context_injection (messages : List Msg) (system_prompt : Option String) :
    (∀ chunks : List String, chunks ≠ [] →
      ContextManager.assemble_context messages system_prompt chunks =
        ContextManager.directive_msgs system_prompt ++
          ⟨"system", ContextManager.context_content chunks⟩ ::
            ContextManager._apply_sliding_window messages 20) ∧
    (ContextManager.assemble_context messages system_prompt [] =
      ContextManager.directive_msgs system_prompt ++
        ContextManager._apply_sliding_window messages 20) ∧
    ContextManager.context_content ["A", "B", "C"] =
      ContextManager.context_instruction ++
        ("[Context 1]\nA" ++ "\n\n" ++ ("[Context 2]\nB" ++ "\n\n" ++ "[Context 3]\nC")) := by
  refine ⟨?_, ?_, ?_⟩
  · intro chunks hne
    unfold ContextManager.assemble_context
    rw [if_neg hne, List.append_assoc]
    rfl
  · unfold ContextManager.assemble_context
    rw [if_pos rfl, List.append_nil]
  · decide

namespace RAGService

/-- The fallback loop never raises when `get_chunks_by_document` does not,
and — up to the final `[:max_chunks]` cap — collects the first 3 chunks of
each linked document in linked order. -/
lemma fallback_loop_take (env : RagEnv) (chunksOf : Nat → List String)
    (henv : ∀ d, env.chunks_by_document d = .ok (chunksOf d)) (max_chunks : Nat) :
    ∀ (docs : List Nat) (acc : List String),
      ∃ res, fallback_loop env max_chunks docs acc = .ok res ∧
        res.take max_chunks =
          (acc ++ (docs.map (fun d => (chunksOf d).take 3)).flatten).take max_chunks := by
  intro docs
  induction docs with
  | nil =>
    intro acc
    exact ⟨acc, rfl, by simp⟩
  | cons d rest ih =>
    intro acc
    by_cases hd : chunksOf d = []
    · obtain ⟨res, hres, htake⟩ := ih acc
      refine ⟨res, ?_, ?_⟩
      · simp only [fallback_loop, henv d, hd, if_pos rfl]
        exact hres
      · simpa [hd] using htake
    · by_cases hmax : max_chunks ≤ (acc ++ (chunksOf d).take 3).length
      · refine ⟨acc ++ (chunksOf d).take 3, ?_, ?_⟩
        · simp only [fallback_loop, henv d]
          rw [if_neg hd, if_pos hmax]
        · rw [List.map_cons, List.flatten_cons, ← List.append_assoc,
            List.take_append_of_le_length hmax]
      · push_neg at hmax
        obtain ⟨res, hres, htake⟩ := ih (acc ++ (chunksOf d).take 3)
        refine ⟨res, ?_, ?_⟩
        · simp only [fallback_loop, henv d]
          rw [if_neg hd, if_neg (by omega)]
          exact hres
        · rw [htake, List.map_cons, List.flatten_cons, ← List.append_assoc]

/-- Any list the body returns without raising is capped at
`MAX_RETRIEVAL_CHUNKS`. -/
lemma retrieve_body_ok_length {env : RagEnv} {user_query : String} {l : List String}
    (h : retrieve_body env user_query = .ok l) : l.length ≤ MAX_RETRIEVAL_CHUNKS := by
  unfold retrieve_body at h
  repeat' split at h
  all_goals cases h
  all_goals simp [List.length_take]

/-- Whatever the environment does, the returned list never exceeds
`MAX_RETRIEVAL_CHUNKS`. -/
lemma retrieve_length_le (env : RagEnv) (user_query : String) :
    (retrieve_relevant_chunks env user_query).length ≤ MAX_RETRIEVAL_CHUNKS := by
  unfold retrieve_relevant_chunks
  cases hb : retrieve_body env user_query with
  | error e => simp
  | ok l => simpa using retrieve_body_ok_length hb

end RAGService

/-- C7: when the relevance search returns zero chunks and linked documents
exist, the retriever returns the first chunks (ascending index) of each
linked document, at most 3 per document, walking the documents in linked
order and capping the overall result at `MAX_RETRIEVAL_CHUNKS`; and for every
environment whatsoever the returned list never exceeds
`MAX_RETRIEVAL_CHUNKS`. -/
theorem C7_fallback_policy (env : RAGService.RagEnv) (user_query : String)
    (conv_db_id : Nat) (docs : List Nat) (chunksOf : Nat → List String)
    (hconv : env.conversation_lookup = .ok conv_db_id)
    (hdocs : env.linked_docs = .ok docs) (hne : docs ≠ [])
    (hsearch : env.search_chunks docs user_query MAX_RETRIEVAL_CHUNKS = .ok [])
    (hchunks : ∀ d, env.chunks_by_document d = .ok (chunksOf d)) :
    RAGService.retrieve_relevant_chunks env user_query =
      ((docs.map (fun d => (chunksOf d).take 3)).flatten).take MAX_RETRIEVAL_CHUNKS ∧
    ∀ (env2 : RAGService.RagEnv) (query2 : String),
      (RAGService.retrieve_relevant_chunks env2 query2).length ≤ MAX_RETRIEVAL_CHUNKS := by
  refine ⟨?_, fun env2 query2 => RAGService.retrieve_length_le env2 query2⟩
  obtain ⟨res, hres, htake⟩ :=
    RAGService.fallback_loop_take env chunksOf hchunks MAX_RETRIEVAL_CHUNKS docs []
  unfold RAGService.retrieve_relevant_chunks RAGService.retrieve_body
  rw [hconv, hdocs]
  simp only [if_neg hne, hsearch, if_pos rfl, hres]
  simpa using htake

/-- C7 witness: two linked documents of 3 and 4 chunks; the keyword search
finds nothing, the fallback takes the 3 chunks of document 1 and then the
first 3 of document 2, and the cap keeps 5. -/
theorem C7_fallback_policy_witness :
    RAGService.retrieve_relevant_chunks
      ⟨.ok 7, .ok [1, 2],
        fun _ _ _ => .ok [],
        fun d => .ok (if d = 1 then ["a1", "a2", "a3"] else ["b1", "b2", "b3", "b4"])⟩
      "query" =
      ((([1, 2] : List Nat).map
        (fun d => ((if d = 1 then ["a1", "a2", "a3"] else ["b1", "b2", "b3", "b4"]) :
          List String).take 3)).flatten).take MAX_RETRIEVAL_CHUNKS ∧
    ∀ (env2 : RAGService.RagEnv) (query2 : String),
      (RAGService.retrieve_relevant_chunks env2 query2).length ≤ MAX_RETRIEVAL_CHUNKS :=
  C7_fallback_policy
    ⟨.ok 7, .ok [1, 2],
      fun _ _ _ => .ok [],
      fun d => .ok (if d = 1 then ["a1", "a2", "a3"] else ["b1", "b2", "b3", "b4"])⟩
    "query" 7 [1, 2]
    (fun d => if d = 1 then ["a1", "a2", "a3"] else ["b1", "b2", "b3", "b4"])
    rfl rfl (by decide) rfl (fun d => rfl)

/-- C8: the retriever never propagates a failure: a conversation with zero
linked documents yields `[]` as a normal outcome, and any error raised
inside the body — conversation lookup, linked-document resolution, search or
chunk fetch — is swallowed, the method returning `[]` instead. -/
theorem C8_retrieve_error_handling :
    (∀ (env : RAGService.RagEnv) (user_query : String) (conv_db_id : Nat),
      env.conversation_lookup = .ok conv_db_id → env.linked_docs = .ok [] →
      RAGService.retrieve_relevant_chunks env user_query = []) ∧
    (∀ (env : RAGService.RagEnv) (user_query : String) (e : String),
      RAGService.retrieve_body env user_query = .error e →
      RAGService.retrieve_relevant_chunks env user_query = []) := by
  constructor
  · intro env user_query conv_db_id hconv hdocs
    unfold RAGService.retrieve_relevant_chunks RAGService.retrieve_body
    rw [hconv, hdocs]
    simp
  · intro env user_query e he
    unfold RAGService.retrieve_relevant_chunks
    rw [he]

namespace DocumentRepository

/-- Every branch of `search_chunks` goes through `ORDER BY chunk_index ASC`,
so the rows come out sorted by ascending chunk index. -/
lemma sqlSelect_sorted (table : List ChunkRow) (doc_db_ids : List Nat)
    (cond : ChunkRow → Bool) (limit : Nat) :
    List.Sorted byIndex (sqlSelect table doc_db_ids cond limit) :=
  List.Pairwise.sublist (List.take_sublist _ _) (List.sorted_insertionSort byIndex _)

/-- SQL `LIMIT` caps the row count. -/
lemma sqlSelect_length_le (table : List ChunkRow) (doc_db_ids : List Nat)
    (cond : ChunkRow → Bool) (limit : Nat) :
    (sqlSelect table doc_db_ids cond limit).length ≤ limit := by
  simp [sqlSelect, List.length_take]

/-- Every returned row comes from a requested document and satisfies the
query condition. -/
lemma sqlSelect_mem {table : List ChunkRow} {doc_db_ids : List Nat}
    {cond : ChunkRow → Bool} {limit : Nat} {r : ChunkRow}
    (h : r ∈ sqlSelect table doc_db_ids cond limit) :
    r.document_id ∈ doc_db_ids ∧ cond r = true := by
  unfold sqlSelect at h
  have h1 : r ∈ (table.filter
      (fun r => decide (r.document_id ∈ doc_db_ids) && cond r)).insertionSort byIndex :=
    (List.take_sublist _ _).subset h
  have h2 : r ∈ table.filter (fun r => decide (r.document_id ∈ doc_db_ids) && cond r) :=
    (List.perm_insertionSort byIndex _).mem_iff.mp h1
  have h3 := (List.mem_filter.mp h2).2
  rw [Bool.and_eq_true] at h3
  exact ⟨of_decide_eq_true h3.1, h3.2⟩

end DocumentRepository

/-- C9 counterexample: the FULLTEXT branch succeeds on two matching chunks of
one document whose relevance (occurrence count of the query) strictly
increases with chunk index, yet the less relevant chunk is returned first —
the result is ordered by chunk index, not by relevance; and with two linked
documents whose single chunks tie in relevance, the chunk of the second-linked
document is returned first because its chunk index is lower — link order is not
the tie-break. -/
theorem C9_counterexample :
    DocumentRepository.search_chunks
        ⟨[⟨1, "dog dog cat", 0⟩, ⟨1, "cat cat cat", 1⟩],
          fun q t => decide (0 < DocumentRepository.countOcc q.data t.data), true⟩
        [1] "cat" 5 =
      [⟨1, "dog dog cat", 0⟩, ⟨1, "cat cat cat", 1⟩] ∧
    DocumentRepository.relevance "cat" ⟨1, "dog dog cat", 0⟩ <
      DocumentRepository.relevance "cat" ⟨1, "cat cat cat", 1⟩ ∧
    DocumentRepository.search_chunks
        ⟨[⟨2, "one cat", 5⟩, ⟨1, "two cat", 3⟩],
          fun q t => decide (0 < DocumentRepository.countOcc q.data t.data), true⟩
        [2, 1] "cat" 5 =
      [⟨1, "two cat", 3⟩, ⟨2, "one cat", 5⟩] ∧
    DocumentRepository.relevance "cat" ⟨2, "one cat", 5⟩ =
      DocumentRepository.relevance "cat" ⟨1, "two cat", 3⟩ := by
  refine ⟨by decide, by decide, by decide, by decide⟩

/-- C9 (amended): `search_chunks` returns matching rows ordered by ascending
chunk index across all requested documents — not by relevance, and with no
regard to the order documents were linked — capped at `limit`; every row
belongs to a requested document, and the result may legitimately have fewer
than `limit` rows or be empty (it is empty whenever no document is given). -/
theorem C9_search_is_index_ordered (env : DocumentRepository.SearchEnv)
    (doc_db_ids : List Nat) (search_query : String) (limit : Nat) :
    List.Sorted DocumentRepository.byIndex
      (DocumentRepository.search_chunks env doc_db_ids search_query limit) ∧
    (DocumentRepository.search_chunks env doc_db_ids search_query limit).length ≤ limit ∧
    (∀ r ∈ DocumentRepository.search_chunks env doc_db_ids search_query limit,
      r.document_id ∈ doc_db_ids) ∧
    DocumentRepository.search_chunks env [] search_query limit = [] := by
  refine ⟨?_, ?_, ?_, by simp [DocumentRepository.search_chunks]⟩
  all_goals unfold DocumentRepository.search_chunks
  · by_cases hd : doc_db_ids = []
    · simp [hd]
    · rw [if_neg hd]
      split
      · exact DocumentRepository.sqlSelect_sorted _ _ _ _
      · split
        · exact DocumentRepository.sqlSelect_sorted _ _ _ _
        · exact DocumentRepository.sqlSelect_sorted _ _ _ _
  · by_cases hd : doc_db_ids = []
    · simp [hd]
    · rw [if_neg hd]
      split
      · exact DocumentRepository.sqlSelect_length_le _ _ _ _
      · split
        · exact DocumentRepository.sqlSelect_length_le _ _ _ _
        · exact DocumentRepository.sqlSelect_length_le _ _ _ _
  · by_cases hd : doc_db_ids = []
    · simp [hd]
    · rw [if_neg hd]
      split
      · exact fun r hr => (DocumentRepository.sqlSelect_mem hr).1
      · split
        · exact fun r hr => (DocumentRepository.sqlSelect_mem hr).1
        · exact fun r hr => (DocumentRepository.sqlSelect_mem hr).1
